import Mathlib

/-!
Verification of the rock-paper-scissors agent simulation (`src/main.rs`).

The per-frame update `simulate` has two phases.  The motion phase moves every
agent toward/away from its nearest opposite-type neighbour plus a crowding
repulsion, and clamps the result into the arena; it is embedded over the real
numbers, with the NaN vector that glam's `normalize` produces on the zero
vector modelled by `Option.none`.  The conversion phase only compares
Euclidean distances against the constant `20.0` and never creates new
coordinates, so it is embedded over exact rational coordinates, with each
comparison `dist < 20` embedded as the equivalent `distSq < 400` (for
nonnegative reals `d < 20` iff `d * d < 400`), which keeps the whole phase
independent of square roots.
-/

/-- The three agent types (`enum Shape` in the source). -/
inductive Shape where
  | Scissors
  | Paper
  | Rock
deriving DecidableEq, Fintype

/-- The cyclic comparison from `impl Ord for Shape`: the first match arm sends
(Scissors,Paper), (Paper,Rock), (Rock,Scissors) to `Greater`, the second arm
sends the three reversed pairs to `Less`, and the catch-all arm (reached
exactly by the three identical pairs) yields `Equal`. -/
def cmpS : Shape → Shape → Ordering
  | Shape.Scissors, Shape.Paper => Ordering.gt
  | Shape.Paper, Shape.Rock => Ordering.gt
  | Shape.Rock, Shape.Scissors => Ordering.gt
  | Shape.Scissors, Shape.Rock => Ordering.lt
  | Shape.Paper, Shape.Scissors => Ordering.lt
  | Shape.Rock, Shape.Paper => Ordering.lt
  | _, _ => Ordering.eq

/-- Rust `a > b` on `Shape` (derived from `Ord`): the comparison is `Greater`.
This is the spec's `beats` relation. -/
def beats (a b : Shape) : Prop := cmpS a b = Ordering.gt

instance (a b : Shape) : Decidable (beats a b) :=
  inferInstanceAs (Decidable (cmpS a b = Ordering.gt))

/-- Rust `a == b` on `Shape`: the source implements `PartialEq` as
`partial_cmp == Some(Equal)`, that is `cmp == Equal`. -/
def shapeEq (a b : Shape) : Prop := cmpS a b = Ordering.eq

instance (a b : Shape) : Decidable (shapeEq a b) :=
  inferInstanceAs (Decidable (cmpS a b = Ordering.eq))

/-- The unique type that beats a given type in the fixed 3-cycle. -/
def beaterOf : Shape → Shape
  | Shape.Scissors => Shape.Rock
  | Shape.Paper => Shape.Scissors
  | Shape.Rock => Shape.Paper

/-- Exact 3-dimensional rational coordinates for the conversion phase
(the source's `Vec3` translation; `z` is carried along like the source does). -/
structure CVec where
  x : ℚ
  y : ℚ
  z : ℚ
deriving DecidableEq

/-- Squared Euclidean distance between two conversion-phase positions.
The source compares `Vec3::distance(..) < 20.0`; for nonnegative distances
this holds iff the squared distance is `< 400`, which is how every distance
test of the conversion phase is embedded. -/
def qdistSq (p q : CVec) : ℚ :=
  (p.x - q.x) * (p.x - q.x) + (p.y - q.y) * (p.y - q.y) + (p.z - q.z) * (p.z - q.z)

/-- Conversion-phase agent: type, position and the visual payload (the glyph
text; the colour is overwritten in lockstep with the glyph in the source, so a
single marker field stands for both `Text` section fields). -/
structure CAgent where
  shape : Shape
  pos : CVec
  vis : String
deriving DecidableEq

/-- One inner-loop body of the conversion pass: snapshot agent `a` against
live agent `b`.  The source first skips when `this_shape == *other_shape`
(snapshot type against live type), then converts when
`distance < 20 && this_shape > *other_shape`, overwriting the live type and
visual payload with the snapshot ones.  Positions are never written. -/
def convOne (a b : CAgent) : CAgent :=
  if ¬ shapeEq a.shape b.shape ∧ qdistSq a.pos b.pos < 400 ∧ beats a.shape b.shape
  then { shape := a.shape, pos := b.pos, vis := a.vis }
  else b

/-- One outer-loop iteration: snapshot agent `a` visits every live agent. -/
def convStep (a : CAgent) (live : List CAgent) : List CAgent :=
  live.map (convOne a)

/-- The conversion outer loop run over an explicit order of snapshot agents
(the source's order is the snapshot list itself; other orders are used to
study order dependence). -/
def convRun (order live : List CAgent) : List CAgent :=
  order.foldl (fun m a => convStep a m) live

/-- The conversion pass of `simulate`: the outer loop iterates over the
snapshot `copy` of the live store taken after the motion phase, and the inner
loop reads and writes the live store. -/
def convPass (l : List CAgent) : List CAgent := convRun l l

/-- The list of the agents' types. -/
def shapesOf (l : List CAgent) : List Shape := l.map CAgent.shape

/-- Concrete conversion agents: Scissors, Paper, Rock, all at the origin
(mutually within the capture radius). -/
def cA0 : CAgent := { shape := Shape.Scissors, pos := ⟨0, 0, 0⟩, vis := "s" }

def cA1 : CAgent := { shape := Shape.Paper, pos := ⟨0, 0, 0⟩, vis := "p" }

def cA2 : CAgent := { shape := Shape.Rock, pos := ⟨0, 0, 0⟩, vis := "r" }

/-- Three mutually-overlapping agents typed Scissors, Paper, Rock. -/
def l3C : List CAgent := [cA0, cA1, cA2]

/-- The same three agents in a rotated outer-loop order. -/
def l3P : List CAgent := [cA2, cA0, cA1]

/-- Two overlapping agents, Scissors and Paper. -/
def l2C : List CAgent := [cA0, cA1]

/- The motion-phase model over the reals.  Comparisons of real numbers are
not computable, so the branch conditions below use the classical decidability
instance. -/

section MotionModel

open scoped Classical

/-- Real 3-dimensional vector for the motion phase (the source's `Vec3`). -/
structure Vec3 where
  x : ℝ
  y : ℝ
  z : ℝ

def vzero : Vec3 := ⟨0, 0, 0⟩

def vadd (v w : Vec3) : Vec3 := ⟨v.x + w.x, v.y + w.y, v.z + w.z⟩

def vsub (v w : Vec3) : Vec3 := ⟨v.x - w.x, v.y - w.y, v.z - w.z⟩

def smul (c : ℝ) (v : Vec3) : Vec3 := ⟨c * v.x, c * v.y, c * v.z⟩

/-- Sum of a list of vectors (the source's `Iterator::sum::<Vec3>()`, which
folds addition from the zero vector; over exact reals the grouping is
irrelevant). -/
def vsum : List Vec3 → Vec3
  | [] => vzero
  | v :: r => vadd v (vsum r)

/-- glam `Vec3::length_squared`: the dot product with itself. -/
def normSq (v : Vec3) : ℝ := v.x * v.x + v.y * v.y + v.z * v.z

/-- glam `Vec3::length`: the square root of the squared length. -/
noncomputable def vnorm (v : Vec3) : ℝ := Real.sqrt (normSq v)

/-- glam `Vec3::distance`: `(self - rhs).length()`. -/
noncomputable def vdist (v w : Vec3) : ℝ := vnorm (vsub v w)

/-- glam `Vec3::normalize`: the vector times the reciprocal of its length.
On the zero vector the float computation is `0 * (1/0) = 0 * inf = NaN` in
every component (the source build has no glam assertions); the NaN vector is
modelled as `none`. -/
noncomputable def normalizeNaN (v : Vec3) : Option Vec3 :=
  if v = vzero then none else some (smul (vnorm v)⁻¹ v)

/-- glam `Vec3::normalize_or_zero`: returns the zero vector whenever the
reciprocal length is not finite and positive, in particular on the zero
vector (and on a NaN input). -/
noncomputable def normalizeOrZero (v : Vec3) : Vec3 :=
  if v = vzero then vzero else smul (vnorm v)⁻¹ v

/-- glam `Vec3::clamp_length_max(max)`: when the squared length exceeds
`max * max`, scale by `max` times the reciprocal square root of the squared
length; otherwise return the vector unchanged. -/
noncomputable def clampLenMax (m : ℝ) (v : Vec3) : Vec3 :=
  if m * m < normSq v then smul (m * (Real.sqrt (normSq v))⁻¹) v else v

/-- Motion-phase agent: the `(Shape, Transform)` pair of the snapshot
`copy` in `simulate` (only the translation of the transform is used). -/
structure MAgent where
  shape : Shape
  pos : Vec3

/-- The different-type filter of the nearest-neighbour query:
`copy.iter().filter(|(shape, _)| shape != this_shape)`, where `!=` is the
negation of the source's `PartialEq` (comparison equal to `Equal`). -/
def oppFilter (snap : List MAgent) (a : MAgent) : List MAgent :=
  snap.filter (fun b => decide (¬ shapeEq b.shape a.shape))

/-- One step of Rust's `Iterator::min_by`: keep the accumulated element
unless the candidate compares strictly smaller (so the first of equally
minimal elements is kept), comparing distances to `base` with `total_cmp`. -/
noncomputable def minStep (base : Vec3) (best : Option MAgent) (cand : MAgent) : Option MAgent :=
  match best with
  | none => some cand
  | some b => if vdist cand.pos base < vdist b.pos base then some cand else some b

/-- Rust `Iterator::min_by` over distances to `base`. -/
noncomputable def minByDist (base : Vec3) (l : List MAgent) : Option MAgent :=
  l.foldl (minStep base) none

/-- The nearest-opposite-type query of the motion phase: filter the snapshot
to different-type agents and take the minimum distance to this agent's
position; `none` when every snapshot agent has this agent's type. -/
noncomputable def nearestOpposite (snap : List MAgent) (a : MAgent) : Option MAgent :=
  minByDist a.pos (oppFilter snap a)

/-- The sign from `match this_shape.cmp(&closest.0)`: `Greater` gives `1.0`
(chase), `Less` gives `-1.0` (flee).  The `Equal` arm is `unreachable!()` in
the source; it is modelled by an arbitrary placeholder value and proven dead
under the query's postcondition below. -/
def signOf : Ordering → ℝ
  | Ordering.gt => 1
  | Ordering.lt => -1
  | Ordering.eq => 0

/-- The attraction / flight displacement
`(closest - this).normalize() * dt * speed * sign * random`; `none` when the
normalization produced the NaN vector. -/
noncomputable def attractTerm (a c : MAgent) (dt speed rho : ℝ) : Option Vec3 :=
  (normalizeNaN (vsub c.pos a.pos)).map
    (fun u => smul (dt * speed * signOf (cmpS a.shape c.shape) * rho) u)

/-- The snapshot positions within the collision radius of `p`
(`copy.iter().filter_map(.. distance < 20 ..)`); this agent's own snapshot
entry always qualifies at distance zero. -/
noncomputable def closePositions (snap : List MAgent) (p : Vec3) : List Vec3 :=
  snap.filterMap (fun b => if vdist b.pos p < 20 then some b.pos else none)

/-- The crowding repulsion `(this - average).normalize_or_zero() * dt * 60`
where `average` is the mean of the close positions.  With an empty
neighbourhood the float average is `0.0 / 0.0 = NaN` and `normalize_or_zero`
maps the NaN vector to zero, so that case yields the zero vector (inside the
motion loop the neighbourhood always contains this agent itself). -/
noncomputable def crowdTerm (snap : List MAgent) (p : Vec3) (dt : ℝ) : Vec3 :=
  if (closePositions snap p).length = 0 then vzero
  else
    smul (dt * 60)
      (normalizeOrZero
        (vsub p
          (smul (((closePositions snap p).length : ℝ))⁻¹ (vsum (closePositions snap p)))))

/-- Addition of possibly-NaN vectors: NaN absorbs. -/
def oadd (v w : Option Vec3) : Option Vec3 := Option.map₂ vadd v w

/-- The unclamped candidate position
`this_translation + attraction + crowding` for a given nearest neighbour. -/
noncomputable def mCandidate (snap : List MAgent) (a c : MAgent) (dt speed rho : ℝ) :
    Option Vec3 :=
  oadd (oadd (some a.pos) (attractTerm a c dt speed rho)) (some (crowdTerm snap a.pos dt))

/-- The motion update of one agent in `simulate`: if no opposite-type agent
exists the loop body `continue`s and the position is unchanged; otherwise the
candidate sum is clamped to length `800` and assigned to the translation.
`none` is the NaN position. -/
noncomputable def motionAgent (snap : List MAgent) (a : MAgent) (dt speed rho : ℝ) :
    Option Vec3 :=
  match nearestOpposite snap a with
  | none => some a.pos
  | some c => (mCandidate snap a c dt speed rho).map (clampLenMax 800)

/-- The motion loop over the live agents: each agent is processed once
against the fixed pre-phase snapshot (its own translation is still the
snapshot one when it is processed) with its own per-frame random scalar. -/
noncomputable def motionPhaseAux (snap : List MAgent) (dt speed : ℝ) (rho : ℕ → ℝ) :
    List MAgent → ℕ → List (Option Vec3)
  | [], _ => []
  | a :: rest, i =>
      motionAgent snap a dt speed (rho i) :: motionPhaseAux snap dt speed rho rest (i + 1)

/-- The whole motion phase: the snapshot is the live list at phase start. -/
noncomputable def motionPhase (l : List MAgent) (dt speed : ℝ) (rho : ℕ → ℝ) :
    List (Option Vec3) :=
  motionPhaseAux l dt speed rho l 0

/-- A spawn position of `startup`: radius times the unit vector at angle
`th`, in the plane `z = 0`. -/
noncomputable def spawnPos (r th : ℝ) : Vec3 :=
  ⟨r * Real.cos th, r * Real.sin th, 0⟩

/-- Modelled from the spec (for claim C4 only): the exponential-smoothing
step "interpolate from the old position toward the clamped candidate by a
blend factor", `old + blend * (target - old)`.  The source has no such
interpolation; this definition exists to state its absence. -/
def specLerp (old target : Vec3) (blend : ℝ) : Vec3 :=
  vadd old (smul blend (vsub target old))

/- Concrete motion agents. -/

/-- A Scissors agent at the origin. -/
def mS0 : MAgent := ⟨Shape.Scissors, ⟨0, 0, 0⟩⟩

/-- A Paper agent at distance 30 (outside the collision radius). -/
def mP30 : MAgent := ⟨Shape.Paper, ⟨30, 0, 0⟩⟩

/-- A Paper agent exactly at the origin (coincident with `mS0`). -/
def mP0 : MAgent := ⟨Shape.Paper, ⟨0, 0, 0⟩⟩

/-- A second Scissors agent, for the all-one-type snapshot. -/
def mS5 : MAgent := ⟨Shape.Scissors, ⟨5, 0, 0⟩⟩

/-- A Paper agent far away (distance 100). -/
def mP100 : MAgent := ⟨Shape.Paper, ⟨100, 0, 0⟩⟩

/-- Scissors and Paper, 30 apart. -/
def snapW : List MAgent := [mS0, mP30]

/-- Scissors and Paper, exactly coincident. -/
def snapCo : List MAgent := [mS0, mP0]

/-- Two Scissors agents only. -/
def snapSame : List MAgent := [mS0, mS5]

/-- Scissors and Paper, 100 apart. -/
def snapFar : List MAgent := [mS0, mP100]

end MotionModel

/- Theorems for the conversion phase.  The motion-phase theorems follow
afterwards. -/

theorem cmpS_self_eq : ∀ t : Shape, cmpS t t = Ordering.eq := by decide

theorem cmpS_eq_iff : ∀ t u : Shape, cmpS t u = Ordering.eq ↔ t = u := by decide

theorem beats_iff_beaterOf : ∀ t u : Shape, beats u t ↔ u = beaterOf t := by decide

theorem convOne_pos (a b : CAgent) : (convOne a b).pos = b.pos := by
  unfold convOne
  split <;> rfl

theorem convRun_cons (a : CAgent) (r live : List CAgent) :
    convRun (a :: r) live = convRun r (convStep a live) := rfl

theorem convRun_getElem (as live : List CAgent) (j : ℕ) :
    (convRun as live)[j]? = (live[j]?).map (fun b => as.foldl (fun x a => convOne a x) b) := by
  induction as generalizing live with
  | nil =>
    show live[j]? = (live[j]?).map (fun b => b)
    cases live[j]? <;> rfl
  | cons a r ih =>
    rw [convRun_cons, ih, convStep, List.getElem?_map]
    cases live[j]? <;> simp [List.foldl_cons]

theorem foldB_fixed (tA : Shape) (as : List CAgent) (b : CAgent)
    (hbs : b.shape = tA)
    (hno : ∀ a ∈ as, qdistSq a.pos b.pos < 400 → ¬ beats a.shape tA) :
    as.foldl (fun x a => convOne a x) b = b := by
  induction as with
  | nil => rfl
  | cons a r ih =>
    rw [List.foldl_cons]
    have hone : convOne a b = b := by
      unfold convOne
      rw [if_neg]
      intro hcond
      exact hno a (List.mem_cons_self a r) hcond.2.1 (hbs ▸ hcond.2.2)
    rw [hone]
    exact ih (fun x hx => hno x (List.mem_cons_of_mem a hx))

theorem foldB_pre (tA tB : Shape) (hgt : beats tA tB)
    (as : List CAgent) (b : CAgent)
    (hs : b.shape = tB ∨ b.shape = tA)
    (hno : ∀ a ∈ as, qdistSq a.pos b.pos < 400 → ¬ beats a.shape tA) :
    ((as.foldl (fun x a => convOne a x) b).shape = tB ∨
      (as.foldl (fun x a => convOne a x) b).shape = tA) ∧
    (as.foldl (fun x a => convOne a x) b).pos = b.pos := by
  induction as generalizing b with
  | nil => exact ⟨hs, rfl⟩
  | cons a r ih =>
    rw [List.foldl_cons]
    have hpos : (convOne a b).pos = b.pos := convOne_pos a b
    have hshape : (convOne a b).shape = tB ∨ (convOne a b).shape = tA := by
      unfold convOne
      split
      · rename_i hcond
        rcases hs with h1 | h1
        · have ha : a.shape = beaterOf tB := (beats_iff_beaterOf tB a.shape).mp (h1 ▸ hcond.2.2)
          have htA : tA = beaterOf tB := (beats_iff_beaterOf tB tA).mp hgt
          exact Or.inr (show a.shape = tA by rw [ha, htA])
        · exact absurd (h1 ▸ hcond.2.2)
            (hno a (List.mem_cons_self a r) hcond.2.1)
      · exact hs
    have hrest := ih (convOne a b) hshape (by
      intro x hx hdx
      rw [hpos] at hdx
      exact hno x (List.mem_cons_of_mem a hx) hdx)
    exact ⟨hrest.1, by rw [hrest.2, hpos]⟩

/- Evaluations of the inner-loop body on the three coincident agents.  A
conversion writes the snapshot agent's type and glyph onto the live agent's
position; with all positions at the origin the result is again one of
`cA0`, `cA1`, `cA2`. -/

theorem convOne_c00 : convOne cA0 cA0 = cA0 := by
  norm_num [convOne, cA0, shapeEq, beats, cmpS, qdistSq]

theorem convOne_c01 : convOne cA0 cA1 = cA0 := by
  norm_num [convOne, cA0, cA1, shapeEq, beats, cmpS, qdistSq]
  decide

theorem convOne_c02 : convOne cA0 cA2 = cA2 := by
  norm_num [convOne, cA0, cA2, shapeEq, beats, cmpS, qdistSq]
  decide

theorem convOne_c10 : convOne cA1 cA0 = cA0 := by
  norm_num [convOne, cA1, cA0, shapeEq, beats, cmpS, qdistSq]
  decide

theorem convOne_c11 : convOne cA1 cA1 = cA1 := by
  norm_num [convOne, cA1, shapeEq, beats, cmpS, qdistSq]

theorem convOne_c12 : convOne cA1 cA2 = cA1 := by
  norm_num [convOne, cA1, cA2, shapeEq, beats, cmpS, qdistSq]
  decide

theorem convOne_c20 : convOne cA2 cA0 = cA2 := by
  norm_num [convOne, cA2, cA0, shapeEq, beats, cmpS, qdistSq]
  decide

theorem convOne_c21 : convOne cA2 cA1 = cA1 := by
  norm_num [convOne, cA2, cA1, shapeEq, beats, cmpS, qdistSq]
  decide

theorem convOne_c22 : convOne cA2 cA2 = cA2 := by
  norm_num [convOne, cA2, shapeEq, beats, cmpS, qdistSq]

/- The source-order pass over the Scissors/Paper/Rock triple, stage by
stage: `[S,P,R] → [S,S,R] → [S,S,P] → [R,R,P]`. -/

theorem convStage1 : convStep cA0 l3C = [cA0, cA0, cA2] := by
  simp only [l3C, convStep, List.map]
  rw [convOne_c00, convOne_c01, convOne_c02]

theorem convStage2 : convStep cA1 [cA0, cA0, cA2] = [cA0, cA0, cA1] := by
  simp only [convStep, List.map]
  rw [convOne_c10, convOne_c12]

theorem convStage3 : convStep cA2 [cA0, cA0, cA1] = [cA2, cA2, cA1] := by
  simp only [convStep, List.map]
  rw [convOne_c20, convOne_c21]

theorem convPass_l3C : convPass l3C = [cA2, cA2, cA1] := by
  show convRun l3C l3C = _
  rw [show convRun l3C l3C = convStep cA2 (convStep cA1 (convStep cA0 l3C)) from rfl]
  rw [convStage1, convStage2, convStage3]

/- The rotated-order pass over the same snapshot:
`[S,P,R] → [R,P,R] → [R,S,R] → [P,S,P]`. -/

theorem convStageP1 : convStep cA2 l3C = [cA2, cA1, cA2] := by
  simp only [l3C, convStep, List.map]
  rw [convOne_c20, convOne_c21, convOne_c22]

theorem convStageP2 : convStep cA0 [cA2, cA1, cA2] = [cA2, cA0, cA2] := by
  simp only [convStep, List.map]
  rw [convOne_c02, convOne_c01]

theorem convStageP3 : convStep cA1 [cA2, cA0, cA2] = [cA1, cA0, cA1] := by
  simp only [convStep, List.map]
  rw [convOne_c12, convOne_c10]

theorem convRun_l3P : convRun l3P l3C = [cA1, cA0, cA1] := by
  rw [show convRun l3P l3C = convStep cA1 (convStep cA0 (convStep cA2 l3C)) from rfl]
  rw [convStageP1, convStageP2, convStageP3]

theorem l3P_perm : List.Perm l3P l3C := by
  show List.Perm ([cA2] ++ [cA0, cA1]) ([cA0, cA1] ++ [cA2])
  exact List.perm_append_comm

/-- C3: in the conversion pass the dominance test compares the converting
agent's snapshotted type against the dominated agent's current live type, so
one agent can be converted twice in one pass.  For the three coincident agents
Scissors, Paper, Rock processed in that order, after the first outer iteration
the agent that began as Paper holds Scissors, after the second the types are
Scissors, Scissors, Paper, and at the end of the pass the final types are
Rock, Rock, Paper (the Paper agent was re-converted to Rock). -/
theorem C3_theorem :
    shapesOf (convRun (List.take 1 l3C) l3C) =
      [Shape.Scissors, Shape.Scissors, Shape.Rock] ∧
    shapesOf (convRun (List.take 2 l3C) l3C) =
      [Shape.Scissors, Shape.Scissors, Shape.Paper] ∧
    shapesOf (convPass l3C) = [Shape.Rock, Shape.Rock, Shape.Paper] := by
  refine ⟨?_, ?_, ?_⟩
  · rw [show convRun (List.take 1 l3C) l3C = convStep cA0 l3C from rfl, convStage1]
    rfl
  · rw [show convRun (List.take 2 l3C) l3C = convStep cA1 (convStep cA0 l3C) from rfl,
      convStage1, convStage2]
    rfl
  · rw [convPass_l3C]
    rfl

/-- C7: the beats relation is exactly the fixed 3-cycle Scissors beats Paper
beats Rock beats Scissors, the reversed pairs are all false, no type beats
itself, and the comparison yields Equal exactly for identical types. -/
theorem C7_theorem :
    beats Shape.Scissors Shape.Paper ∧ beats Shape.Paper Shape.Rock ∧
    beats Shape.Rock Shape.Scissors ∧
    ¬ beats Shape.Paper Shape.Scissors ∧ ¬ beats Shape.Rock Shape.Paper ∧
    ¬ beats Shape.Scissors Shape.Rock ∧
    (∀ a : Shape, ¬ beats a a) ∧
    (∀ a b : Shape, cmpS a b = Ordering.eq ↔ a = b) := by
  decide

/-- C2 counterexample: the outcome of the conversion pass is not invariant
under permuting the outer evaluation order.  For the three coincident agents
Scissors, Paper, Rock, the source order produces the final types
Rock, Rock, Paper, while the rotated order (a permutation of the same
snapshot agents acting on the same initial live store) produces
Paper, Scissors, Paper. -/
theorem C2_counterexample :
    List.Perm l3P l3C ∧
    shapesOf (convRun l3C l3C) = [Shape.Rock, Shape.Rock, Shape.Paper] ∧
    shapesOf (convRun l3P l3C) = [Shape.Paper, Shape.Scissors, Shape.Paper] := by
  refine ⟨l3P_perm, ?_, ?_⟩
  · rw [show convRun l3C l3C = convPass l3C from rfl, convPass_l3C]
    rfl
  · rw [convRun_l3P]
    rfl

/-- C2 (amended): conversion decisions read the dominated agent's current
live type (only the converting agent's type and the positions come from the
snapshot), so chained conversions within one frame do act on already-converted
values and the final assignment depends on the evaluation order: a permuted
outer order yields a different result, and the source order itself differs
from the pure-snapshot prediction Rock, Scissors, Paper for the coincident
Scissors/Paper/Rock triple. -/
theorem C2_theorem :
    List.Perm l3P l3C ∧
    shapesOf (convRun l3P l3C) ≠ shapesOf (convRun l3C l3C) ∧
    shapesOf (convRun l3C l3C) ≠ [Shape.Rock, Shape.Scissors, Shape.Paper] := by
  refine ⟨l3P_perm, ?_, ?_⟩
  · rw [convRun_l3P, show convRun l3C l3C = convPass l3C from rfl, convPass_l3C]
    decide
  · rw [show convRun l3C l3C = convPass l3C from rfl, convPass_l3C]
    decide

/-- C1 counterexample: agents 0 (Scissors) and 1 (Paper) of the coincident
Scissors/Paper/Rock triple are within the capture radius and Scissors beats
Paper, yet after the pass agent 1 holds Rock, not Scissors: it was first
converted to Scissors and then re-converted by agent 2 (Rock). -/
theorem C1_counterexample :
    qdistSq cA0.pos cA1.pos < 400 ∧
    beats cA0.shape cA1.shape ∧
    shapesOf (convPass l3C) = [Shape.Rock, Shape.Rock, Shape.Paper] ∧
    Shape.Rock ≠ Shape.Scissors := by
  refine ⟨by norm_num [qdistSq, cA0, cA1], by decide, ?_, by decide⟩
  rw [convPass_l3C]
  rfl

/-- C1 (amended): after one conversion pass, if agents A and B are within the
capture radius, A's pre-phase type beats B's pre-phase type, and no agent
within the capture radius of B carries the type that beats A's pre-phase type,
then B ends the pass with A's pre-phase type.  (The extra condition is forced
by the live-type dominance test: without it a later-processed agent can
re-convert B away from A's type, as the counterexample shows.) -/
theorem C1_theorem (l : List CAgent) (j : ℕ) (A B : CAgent)
    (hA : A ∈ l) (hB : l[j]? = some B)
    (hd : qdistSq A.pos B.pos < 400)
    (hb : beats A.shape B.shape)
    (hno : ∀ a ∈ l, qdistSq a.pos B.pos < 400 → ¬ beats a.shape A.shape) :
    ((convPass l)[j]?).map CAgent.shape = some A.shape := by
  rw [convPass, convRun_getElem, hB]
  rcases List.append_of_mem hA with ⟨u, v, rfl⟩
  simp only [Option.map_some', Option.some.injEq, List.foldl_append, List.foldl_cons]
  have hu := foldB_pre A.shape B.shape hb u B (Or.inl rfl)
    (fun a ha => hno a (List.mem_append_left _ ha))
  set m := u.foldl (fun x a => convOne a x) B with hm
  have hmid : (convOne A m).shape = A.shape ∧ (convOne A m).pos = B.pos := by
    rcases hu.1 with h1 | h1
    · constructor
      · unfold convOne
        rw [if_pos]
        refine ⟨?_, ?_, ?_⟩
        · rw [h1]
          intro heq
          rw [shapeEq, hb] at heq
          cases heq
        · rw [hu.2]
          exact hd
        · rw [h1]
          exact hb
      · exact (convOne_pos A m).trans hu.2
    · constructor
      · have heq : convOne A m = m := by
          unfold convOne
          rw [if_neg]
          intro hcond
          have hself := h1 ▸ hcond.2.2
          rw [beats, cmpS_self_eq] at hself
          cases hself
        rw [heq, h1]
      · exact (convOne_pos A m).trans hu.2
  have hfin := foldB_fixed A.shape v (convOne A m) hmid.1 (by
    intro a ha hda
    rw [hmid.2] at hda
    exact hno a (List.mem_append_right _ (List.mem_cons_of_mem A ha)) hda)
  rw [hfin]
  exact hmid.1

/-- C1 witness: two coincident agents, Scissors and Paper, with no
Rock-carrier nearby; the Paper agent indeed ends the pass as Scissors. -/
theorem C1_witness :
    cA0 ∈ l2C ∧ l2C[1]? = some cA1 ∧
    qdistSq cA0.pos cA1.pos < 400 ∧ beats cA0.shape cA1.shape ∧
    (∀ a ∈ l2C, qdistSq a.pos cA1.pos < 400 → ¬ beats a.shape cA0.shape) ∧
    ((convPass l2C)[1]?).map CAgent.shape = some cA0.shape := by
  have hno : ∀ a ∈ l2C, qdistSq a.pos cA1.pos < 400 → ¬ beats a.shape cA0.shape := by
    intro a ha _
    rcases List.mem_cons.mp ha with rfl | ha2
    · decide
    · rcases List.mem_singleton.mp ha2 with rfl
      decide
  exact ⟨by decide, rfl, by norm_num [qdistSq, cA0, cA1], by decide, hno,
    C1_theorem l2C 1 cA0 cA1 (by decide) rfl (by norm_num [qdistSq, cA0, cA1]) (by decide) hno⟩

/- Motion-phase helper lemmas. -/

theorem vsub_eq_vzero_iff (v w : Vec3) : vsub v w = vzero ↔ v = w := by
  cases v
  cases w
  simp [vsub, vzero, Vec3.mk.injEq, sub_eq_zero]

theorem normSq_smul (c : ℝ) (v : Vec3) : normSq (smul c v) = c * c * normSq v := by
  simp only [normSq, smul]
  ring

theorem vnorm_smul (c : ℝ) (v : Vec3) (hc : 0 ≤ c) : vnorm (smul c v) = c * vnorm v := by
  unfold vnorm
  rw [normSq_smul, Real.sqrt_mul (mul_self_nonneg c), Real.sqrt_mul_self hc]

theorem vnorm_vzero : vnorm vzero = 0 := by
  simp [vnorm, normSq, vzero]

theorem normalizeOrZero_vzero : normalizeOrZero vzero = vzero := by
  unfold normalizeOrZero
  rw [if_pos rfl]

theorem clamp800_le (v : Vec3) : vnorm (clampLenMax 800 v) ≤ 800 := by
  unfold clampLenMax
  split
  · rename_i h
    have h0 : 0 < normSq v := lt_trans (by norm_num) h
    have hs : 0 < Real.sqrt (normSq v) := Real.sqrt_pos.mpr h0
    rw [vnorm_smul _ _ (by positivity)]
    unfold vnorm
    rw [mul_assoc, inv_mul_cancel₀ (ne_of_gt hs), mul_one]
  · rename_i h
    push_neg at h
    unfold vnorm
    calc Real.sqrt (normSq v) ≤ Real.sqrt (800 * 800) := Real.sqrt_le_sqrt h
    _ = 800 := by
        rw [show (800 : ℝ) * 800 = 800 ^ 2 by ring, Real.sqrt_sq (by norm_num : (0:ℝ) ≤ 800)]

theorem foldl_minStep_mem (base : Vec3) (l : List MAgent) (acc : Option MAgent) (c : MAgent)
    (h : l.foldl (minStep base) acc = some c) : acc = some c ∨ c ∈ l := by
  induction l generalizing acc with
  | nil => exact Or.inl h
  | cons x r ih =>
    rw [List.foldl_cons] at h
    rcases ih (minStep base acc x) h with h2 | h2
    · cases acc with
      | none =>
        simp only [minStep, Option.some.injEq] at h2
        exact Or.inr (h2 ▸ List.mem_cons_self x r)
      | some b =>
        simp only [minStep] at h2
        split at h2
        · exact Or.inr ((Option.some.injEq _ _ ▸ h2) ▸ List.mem_cons_self x r)
        · exact Or.inl h2
    · exact Or.inr (List.mem_cons_of_mem x h2)

theorem nearestOpposite_mem (snap : List MAgent) (a c : MAgent)
    (h : nearestOpposite snap a = some c) : c ∈ snap ∧ ¬ shapeEq c.shape a.shape := by
  rcases foldl_minStep_mem a.pos (oppFilter snap a) none c h with h2 | h2
  · cases h2
  · have hf := List.mem_filter.mp h2
    exact ⟨hf.1, by simpa using hf.2⟩

theorem oppFilter_eq_nil (snap : List MAgent) (a : MAgent)
    (h : ∀ b ∈ snap, b.shape = a.shape) : oppFilter snap a = [] := by
  unfold oppFilter
  rw [List.filter_eq_nil_iff]
  intro b hb
  simp [shapeEq, h b hb, cmpS_self_eq]

theorem motionAgent_none (snap : List MAgent) (a : MAgent) (dt speed rho : ℝ)
    (h : nearestOpposite snap a = none) :
    motionAgent snap a dt speed rho = some a.pos := by
  unfold motionAgent
  rw [h]

theorem motionAgent_some (snap : List MAgent) (a c : MAgent) (dt speed rho : ℝ)
    (h : nearestOpposite snap a = some c) :
    motionAgent snap a dt speed rho = (mCandidate snap a c dt speed rho).map (clampLenMax 800) := by
  unfold motionAgent
  rw [h]

/-- C8: if every agent in the snapshot has the same type as a given agent,
the nearest-opposite query returns nothing and the motion update leaves the
agent's position unchanged for this frame; in particular, when all agents
share one type no agent moves. -/
theorem C8_theorem (snap : List MAgent) (a : MAgent) (dt speed rho : ℝ)
    (h : ∀ b ∈ snap, b.shape = a.shape) :
    motionAgent snap a dt speed rho = some a.pos := by
  have hn : nearestOpposite snap a = none := by
    unfold nearestOpposite
    rw [oppFilter_eq_nil snap a h]
    rfl
  exact motionAgent_none snap a dt speed rho hn

/-- C8 witness: a snapshot of two Scissors agents leaves the first agent's
position unchanged. -/
theorem C8_witness :
    (∀ b ∈ snapSame, b.shape = mS0.shape) ∧
    motionAgent snapSame mS0 1 100 (1 / 2) = some mS0.pos := by
  have h : ∀ b ∈ snapSame, b.shape = mS0.shape := by
    intro b hb
    rcases List.mem_cons.mp hb with rfl | hb2
    · rfl
    · rcases List.mem_singleton.mp hb2 with rfl
      rfl
  exact ⟨h, C8_theorem snapSame mS0 1 100 (1 / 2) h⟩

/-- C10: whenever the nearest-opposite query returns a neighbour, comparing
the agent's type with the neighbour's type cannot yield `Equal` (the
different-type filter keeps only types whose comparison is not `Equal`, and
the comparison is `Equal` exactly on identical types), so the
`unreachable!()` arm of the sign computation is dead and the sign is `1` or
`-1`. -/
theorem C10_theorem (snap : List MAgent) (a c : MAgent)
    (h : nearestOpposite snap a = some c) :
    cmpS a.shape c.shape ≠ Ordering.eq ∧
    (signOf (cmpS a.shape c.shape) = 1 ∨ signOf (cmpS a.shape c.shape) = -1) := by
  have hm := nearestOpposite_mem snap a c h
  have hne : c.shape ≠ a.shape := fun hsh => hm.2 (by rw [shapeEq, hsh, cmpS_self_eq])
  have hone : cmpS a.shape c.shape ≠ Ordering.eq := by
    intro heq
    exact hne ((cmpS_eq_iff a.shape c.shape).mp heq).symm
  refine ⟨hone, ?_⟩
  cases ho : cmpS a.shape c.shape with
  | lt => exact Or.inr rfl
  | eq => exact absurd ho hone
  | gt => exact Or.inl rfl

/-- C10 witness: in the Scissors/Paper snapshot the query returns the Paper
agent and the comparison is not `Equal`. -/
theorem C10_witness :
    nearestOpposite snapW mS0 = some mP30 ∧
    cmpS mS0.shape mP30.shape ≠ Ordering.eq ∧
    (signOf (cmpS mS0.shape mP30.shape) = 1 ∨ signOf (cmpS mS0.shape mP30.shape) = -1) := by
  have hn : nearestOpposite snapW mS0 = some mP30 := rfl
  exact ⟨hn, (C10_theorem snapW mS0 mP30 hn).1, (C10_theorem snapW mS0 mP30 hn).2⟩

/- Crowding-term lemmas. -/

theorem smul_smul_vec (c d : ℝ) (v : Vec3) : smul c (smul d v) = smul (c * d) v := by
  simp only [smul, Vec3.mk.injEq]
  refine ⟨by ring, by ring, by ring⟩

theorem one_smul_vec (v : Vec3) : smul 1 v = v := by
  cases v
  simp [smul]

theorem smul_vzero (c : ℝ) : smul c vzero = vzero := by
  simp [smul, vzero]

theorem vsub_self_vec (v : Vec3) : vsub v v = vzero := by
  simp [vsub, vzero]

theorem vnorm_single (d : ℝ) (hd : 0 ≤ d) : vnorm ⟨d, 0, 0⟩ = d := by
  unfold vnorm
  simp only [normSq]
  rw [show d * d + 0 * 0 + 0 * 0 = d * d by ring, Real.sqrt_mul_self hd]

theorem vdist_single (d : ℝ) (hd : 0 ≤ d) : vdist ⟨d, 0, 0⟩ ⟨0, 0, 0⟩ = d := by
  unfold vdist
  rw [show vsub ⟨d, 0, 0⟩ ⟨0, 0, 0⟩ = (⟨d, 0, 0⟩ : Vec3) by simp [vsub]]
  exact vnorm_single d hd

theorem closePositions_all_eq (snap : List MAgent) (a : MAgent)
    (h : ∀ b ∈ snap, b ≠ a → 20 ≤ vdist b.pos a.pos) :
    ∀ q ∈ closePositions snap a.pos, q = a.pos := by
  intro q hq
  rcases List.mem_filterMap.mp hq with ⟨b, hb, hfb⟩
  by_cases hba : b = a
  · subst hba
    split at hfb
    · rw [← Option.some.inj hfb]
    · exact Option.noConfusion hfb
  · split at hfb
    · rename_i hlt
      exact absurd hlt (not_lt.mpr (h b hb hba))
    · exact Option.noConfusion hfb

theorem vsum_all_eq (p : Vec3) (L : List Vec3) (h : ∀ q ∈ L, q = p) :
    vsum L = smul (L.length : ℝ) p := by
  induction L with
  | nil => simp [vsum, smul, vzero]
  | cons q r ih =>
    rw [show vsum (q :: r) = vadd q (vsum r) from rfl,
      h q (List.mem_cons_self q r), ih (fun x hx => h x (List.mem_cons_of_mem q hx))]
    simp only [vadd, smul, List.length_cons, Vec3.mk.injEq, Nat.cast_add, Nat.cast_one]
    refine ⟨by ring, by ring, by ring⟩

theorem crowd_far (snap : List MAgent) (a : MAgent) (dt : ℝ)
    (h : ∀ b ∈ snap, b ≠ a → 20 ≤ vdist b.pos a.pos) :
    crowdTerm snap a.pos dt = vzero := by
  unfold crowdTerm
  split
  · rfl
  · rename_i hl
    have hlen : ((closePositions snap a.pos).length : ℝ) ≠ 0 := by
      exact_mod_cast hl
    rw [vsum_all_eq a.pos _ (closePositions_all_eq snap a h), smul_smul_vec,
      inv_mul_cancel₀ hlen, one_smul_vec, vsub_self_vec, normalizeOrZero_vzero, smul_vzero]

/-- C9: if no other agent lies within the collision radius of a given agent,
the crowding-repulsion term computed for that agent is the zero vector (its
own snapshot entry is the only close position, so the local average is the
agent's own position and `normalize_or_zero` of the zero difference is zero);
no NaN and no division-by-zero artefact arises. -/
theorem C9_theorem (snap : List MAgent) (a : MAgent) (dt : ℝ)
    (h : ∀ b ∈ snap, b ≠ a → 20 ≤ vdist b.pos a.pos) :
    crowdTerm snap a.pos dt = vzero :=
  crowd_far snap a dt h

/-- C9 witness: Scissors at the origin with the only other agent 100 away
gets a zero crowding term. -/
theorem C9_witness :
    (∀ b ∈ snapFar, b ≠ mS0 → 20 ≤ vdist b.pos mS0.pos) ∧
    crowdTerm snapFar mS0.pos 1 = vzero := by
  have h : ∀ b ∈ snapFar, b ≠ mS0 → 20 ≤ vdist b.pos mS0.pos := by
    intro b hb hne
    rcases List.mem_cons.mp hb with rfl | hb2
    · exact absurd rfl hne
    · rcases List.mem_singleton.mp hb2 with rfl
      have hv : vdist mP100.pos mS0.pos = 100 := by
        show vdist ⟨100, 0, 0⟩ ⟨0, 0, 0⟩ = 100
        exact vdist_single 100 (by norm_num)
      rw [hv]
      norm_num
  exact ⟨h, C9_theorem snapFar mS0 1 h⟩

/- NaN-propagation lemmas for the coincident-neighbour case. -/

theorem normalizeNaN_coincident (c a : Vec3) (hco : c = a) :
    normalizeNaN (vsub c a) = none := by
  rw [(vsub_eq_vzero_iff c a).mpr hco]
  unfold normalizeNaN
  rw [if_pos rfl]

theorem motion_coincident_none (snap : List MAgent) (a c : MAgent) (dt speed rho : ℝ)
    (hn : nearestOpposite snap a = some c) (hco : c.pos = a.pos) :
    motionAgent snap a dt speed rho = none := by
  rw [motionAgent_some snap a c dt speed rho hn]
  unfold mCandidate attractTerm
  rw [normalizeNaN_coincident c.pos a.pos hco]
  rfl

/-- C5 counterexample: for the coincident Scissors/Paper pair the nearest
opposite-type neighbour of the Scissors agent sits exactly at its own
position, and normalizing the zero difference vector yields the NaN vector
(modelled `none`), not the zero vector; the whole motion update of that agent
is NaN, not an unmoved position. -/
theorem C5_counterexample :
    nearestOpposite snapCo mS0 = some mP0 ∧
    mP0.pos = mS0.pos ∧
    normalizeNaN (vsub mP0.pos mS0.pos) = none ∧
    motionAgent snapCo mS0 1 100 (1 / 2) = none :=
  ⟨rfl, rfl, normalizeNaN_coincident mP0.pos mS0.pos rfl,
    motion_coincident_none snapCo mS0 mP0 1 100 (1 / 2) rfl rfl⟩

/-- C5 (amended): the motion update is not numerically total.  When an
agent's nearest opposite-type neighbour lies exactly at the agent's own
position, glam's `normalize` of the zero difference produces the NaN vector
(not the zero vector), and the agent's whole updated position is NaN; only
the crowding term's `normalize_or_zero` maps the zero vector to zero. -/
theorem C5_theorem (snap : List MAgent) (a c : MAgent) (dt speed rho : ℝ)
    (hn : nearestOpposite snap a = some c) (hco : c.pos = a.pos) :
    normalizeNaN (vsub c.pos a.pos) = none ∧
    motionAgent snap a dt speed rho = none ∧
    normalizeOrZero vzero = vzero :=
  ⟨normalizeNaN_coincident c.pos a.pos hco,
    motion_coincident_none snap a c dt speed rho hn hco,
    normalizeOrZero_vzero⟩

/-- C5 witness: the coincident Scissors/Paper pair instantiates the amended
statement. -/
theorem C5_witness :
    nearestOpposite snapCo mS0 = some mP0 ∧ mP0.pos = mS0.pos ∧
    (normalizeNaN (vsub mP0.pos mS0.pos) = none ∧
      motionAgent snapCo mS0 1 100 (1 / 2) = none ∧
      normalizeOrZero vzero = vzero) :=
  ⟨rfl, rfl, C5_theorem snapCo mS0 mP0 1 100 (1 / 2) rfl rfl⟩

/- Bound lemmas for the arena clamp. -/

theorem motionAgent_norm_le (snap : List MAgent) (a : MAgent) (dt speed rho : ℝ)
    (hb : vnorm a.pos ≤ 800)
    (hc : ∀ c : MAgent, nearestOpposite snap a = some c → c.pos ≠ a.pos) :
    ∃ p, motionAgent snap a dt speed rho = some p ∧ vnorm p ≤ 800 := by
  cases hn : nearestOpposite snap a with
  | none => exact ⟨a.pos, motionAgent_none snap a dt speed rho hn, hb⟩
  | some c =>
    have hvz : vsub c.pos a.pos ≠ vzero := fun h => hc c hn ((vsub_eq_vzero_iff _ _).mp h)
    have hcand : ∃ v, mCandidate snap a c dt speed rho = some v := by
      unfold mCandidate attractTerm normalizeNaN
      rw [if_neg hvz]
      exact ⟨_, rfl⟩
    obtain ⟨v, hv⟩ := hcand
    refine ⟨clampLenMax 800 v, ?_, clamp800_le v⟩
    rw [motionAgent_some snap a c dt speed rho hn, hv]
    rfl

theorem motionPhaseAux_mem (snap : List MAgent) (dt speed : ℝ) (rho : ℕ → ℝ)
    (tr : List MAgent) (i : ℕ) (o : Option Vec3)
    (ho : o ∈ motionPhaseAux snap dt speed rho tr i) :
    ∃ a ∈ tr, ∃ k, o = motionAgent snap a dt speed (rho k) := by
  induction tr generalizing i with
  | nil => exact absurd ho (by simp [motionPhaseAux])
  | cons a rest ih =>
    rw [show motionPhaseAux snap dt speed rho (a :: rest) i =
        motionAgent snap a dt speed (rho i) :: motionPhaseAux snap dt speed rho rest (i + 1)
      from rfl] at ho
    rcases List.mem_cons.mp ho with h | h
    · exact ⟨a, List.mem_cons_self a rest, i, h⟩
    · rcases ih (i + 1) h with ⟨a2, ha2, k, hk⟩
      exact ⟨a2, List.mem_cons_of_mem a ha2, k, hk⟩

theorem spawnPos_norm (r th : ℝ) (h0 : 0 ≤ r) : vnorm (spawnPos r th) = r := by
  unfold spawnPos vnorm
  simp only [normSq]
  rw [show r * Real.cos th * (r * Real.cos th) + r * Real.sin th * (r * Real.sin th) + 0 * 0
      = r * r * (Real.sin th ^ 2 + Real.cos th ^ 2) by ring,
    Real.sin_sq_add_cos_sq, mul_one, Real.sqrt_mul_self h0]

/-- C6 counterexample: both agents of the coincident Scissors/Paper pair
start within the arena bound, yet after the motion update the Scissors
agent's position is the NaN vector (modelled `none`), whose magnitude is not
below any bound — the per-frame clamp does not preserve the bound in the
coincident-neighbour case, because `clamp_length_max` leaves a NaN vector
unchanged. -/
theorem C6_counterexample :
    vnorm mS0.pos ≤ 800 ∧ vnorm mP0.pos ≤ 800 ∧
    motionAgent snapCo mS0 1 100 (1 / 2) = none := by
  refine ⟨?_, ?_, motion_coincident_none snapCo mS0 mP0 1 100 (1 / 2) rfl rfl⟩
  · show vnorm ⟨0, 0, 0⟩ ≤ 800
    rw [vnorm_single 0 le_rfl]
    norm_num
  · show vnorm ⟨0, 0, 0⟩ ≤ 800
    rw [vnorm_single 0 le_rfl]
    norm_num

/-- C6 (amended): spawn positions (radius in the band `[100, 800)`) have
magnitude at most 800, and for a frame in which no agent's nearest
opposite-type neighbour lies exactly at the agent's own position, every
agent's position has magnitude at most 800 after the motion phase: moving
agents are clamped to the arena radius and non-moving agents keep their
in-bound pre-frame position.  (The coincident-neighbour hypothesis is forced
by the NaN counterexample.) -/
theorem C6_theorem :
    (∀ r th : ℝ, 100 ≤ r → r < 800 → vnorm (spawnPos r th) ≤ 800) ∧
    (∀ (l : List MAgent) (dt speed : ℝ) (rho : ℕ → ℝ),
      (∀ b ∈ l, vnorm b.pos ≤ 800) →
      (∀ a ∈ l, ∀ c : MAgent, nearestOpposite l a = some c → c.pos ≠ a.pos) →
      ∀ o ∈ motionPhase l dt speed rho, ∃ p : Vec3, o = some p ∧ vnorm p ≤ 800) := by
  constructor
  · intro r th h1 h2
    rw [spawnPos_norm r th (by linarith)]
    linarith
  · intro l dt speed rho hb hc o ho
    rcases motionPhaseAux_mem l dt speed rho l 0 o ho with ⟨a, ha, k, rfl⟩
    exact motionAgent_norm_le l a dt speed (rho k) (hb a ha) (fun c hcn => hc a ha c hcn)

/-- C6 witness: a spawn position at radius 100 and the two-agent snapshot
with agents 30 apart instantiate both halves of the amended statement. -/
theorem C6_witness :
    ((100 : ℝ) ≤ 100 ∧ (100 : ℝ) < 800 ∧ vnorm (spawnPos 100 0) ≤ 800) ∧
    (∀ b ∈ snapW, vnorm b.pos ≤ 800) ∧
    (∀ a ∈ snapW, ∀ c : MAgent, nearestOpposite snapW a = some c → c.pos ≠ a.pos) ∧
    (∀ o ∈ motionPhase snapW 1 100 (fun _ => 1 / 2), ∃ p : Vec3, o = some p ∧ vnorm p ≤ 800) := by
  have hb : ∀ b ∈ snapW, vnorm b.pos ≤ 800 := by
    intro b hbm
    rcases List.mem_cons.mp hbm with rfl | hb2
    · show vnorm ⟨0, 0, 0⟩ ≤ 800
      rw [vnorm_single 0 le_rfl]
      norm_num
    · rcases List.mem_singleton.mp hb2 with rfl
      show vnorm ⟨30, 0, 0⟩ ≤ 800
      rw [vnorm_single 30 (by norm_num)]
      norm_num
  have hc : ∀ a ∈ snapW, ∀ c : MAgent, nearestOpposite snapW a = some c → c.pos ≠ a.pos := by
    intro a ham c hcn
    rcases List.mem_cons.mp ham with rfl | ha2
    · have hc2 : mP30 = c :=
        Option.some.inj ((show nearestOpposite snapW mS0 = some mP30 from rfl).symm.trans hcn)
      subst hc2
      intro hpos
      have := congrArg Vec3.x hpos
      norm_num [mP30, mS0] at this
    · rcases List.mem_singleton.mp ha2 with rfl
      have hc2 : mS0 = c :=
        Option.some.inj ((show nearestOpposite snapW mP30 = some mS0 from rfl).symm.trans hcn)
      subst hc2
      intro hpos
      have := congrArg Vec3.x hpos
      norm_num [mP30, mS0] at this
  refine ⟨⟨le_rfl, by norm_num, ?_⟩, hb, hc, C6_theorem.2 snapW 1 100 (fun _ => 1 / 2) hb hc⟩
  rw [spawnPos_norm 100 0 (by norm_num)]
  norm_num

/- Evaluation of the motion update on the Scissors/Paper snapshot with the
agents 30 apart (so the crowding term is zero and the attraction is the unit
vector toward the Paper agent). -/

theorem normalizeNaN_single (d : ℝ) (hd : 0 < d) :
    normalizeNaN ⟨d, 0, 0⟩ = some ⟨1, 0, 0⟩ := by
  have hne : (⟨d, 0, 0⟩ : Vec3) ≠ vzero := by
    intro h
    have hx := congrArg Vec3.x h
    simp only [vzero] at hx
    exact absurd hx (ne_of_gt hd)
  unfold normalizeNaN
  rw [if_neg hne, vnorm_single d hd.le]
  simp only [smul, Option.some.injEq, Vec3.mk.injEq]
  refine ⟨inv_mul_cancel₀ (ne_of_gt hd), by ring, by ring⟩

theorem crowd_snapW (dt : ℝ) : crowdTerm snapW mS0.pos dt = vzero := by
  apply crowd_far
  intro b hb hne
  rcases List.mem_cons.mp hb with rfl | hb2
  · exact absurd rfl hne
  · rcases List.mem_singleton.mp hb2 with rfl
    show 20 ≤ vdist ⟨30, 0, 0⟩ ⟨0, 0, 0⟩
    rw [vdist_single 30 (by norm_num)]
    norm_num

theorem motionW_eval (dt rho : ℝ) :
    motionAgent snapW mS0 dt 100 rho = some (clampLenMax 800 ⟨dt * 100 * rho, 0, 0⟩) := by
  rw [motionAgent_some snapW mS0 mP30 dt 100 rho rfl]
  unfold mCandidate attractTerm
  rw [show vsub mP30.pos mS0.pos = (⟨30, 0, 0⟩ : Vec3) by
    simp [mP30, mS0, vsub]]
  rw [normalizeNaN_single 30 (by norm_num)]
  have hvec :
      vadd (vadd mS0.pos
          (smul (dt * 100 * signOf (cmpS mS0.shape mP30.shape) * rho) ⟨1, 0, 0⟩))
        (crowdTerm snapW mS0.pos dt) = ⟨dt * 100 * rho, 0, 0⟩ := by
    rw [crowd_snapW dt]
    show vadd (vadd ⟨0, 0, 0⟩ (smul (dt * 100 * 1 * rho) ⟨1, 0, 0⟩)) vzero = _
    simp only [vadd, smul, vzero, Vec3.mk.injEq]
    refine ⟨by ring, by ring, by ring⟩
  show some (clampLenMax 800
      (vadd (vadd mS0.pos
          (smul (dt * 100 * signOf (cmpS mS0.shape mP30.shape) * rho) ⟨1, 0, 0⟩))
        (crowdTerm snapW mS0.pos dt))) = _
  rw [hvec]

theorem clamp_small (d : ℝ) (hd : d * d ≤ 640000) :
    clampLenMax 800 ⟨d, 0, 0⟩ = ⟨d, 0, 0⟩ := by
  have h : ¬ ((800 : ℝ) * 800 < normSq ⟨d, 0, 0⟩) := by
    simp only [normSq]
    push_neg
    nlinarith
  unfold clampLenMax
  rw [if_neg h]

/-- C4 counterexample: in the Scissors/Paper snapshot the motion update
assigns the clamped candidate directly — at frame times 1 and 2 the new
position is exactly the clamped candidate, which differs from the old
position, and no fixed blend constant `b` makes the outputs equal an
exponential-smoothing interpolation `old + (b * dt) * (candidate - old)` at
both frame times (the first forces `b = 1`, the second `b = 1/2`). -/
theorem C4_counterexample :
    motionAgent snapW mS0 1 100 (1 / 2) = some ⟨50, 0, 0⟩ ∧
    motionAgent snapW mS0 2 100 (1 / 2) = some ⟨100, 0, 0⟩ ∧
    clampLenMax 800 ⟨50, 0, 0⟩ = ⟨50, 0, 0⟩ ∧
    Vec3.mk 50 0 0 ≠ mS0.pos ∧
    ¬ ∃ b : ℝ,
      motionAgent snapW mS0 1 100 (1 / 2) = some (specLerp mS0.pos ⟨50, 0, 0⟩ (b * 1)) ∧
      motionAgent snapW mS0 2 100 (1 / 2) = some (specLerp mS0.pos ⟨100, 0, 0⟩ (b * 2)) := by
  have h1 : motionAgent snapW mS0 1 100 (1 / 2) = some ⟨50, 0, 0⟩ := by
    rw [motionW_eval 1 (1 / 2), show (1 : ℝ) * 100 * (1 / 2) = 50 by norm_num,
      clamp_small 50 (by norm_num)]
  have h2 : motionAgent snapW mS0 2 100 (1 / 2) = some ⟨100, 0, 0⟩ := by
    rw [motionW_eval 2 (1 / 2), show (2 : ℝ) * 100 * (1 / 2) = 100 by norm_num,
      clamp_small 100 (by norm_num)]
  refine ⟨h1, h2, clamp_small 50 (by norm_num), ?_, ?_⟩
  · intro h
    have hx := congrArg Vec3.x h
    norm_num [mS0] at hx
  · rintro ⟨b, hb1, hb2⟩
    rw [h1] at hb1
    rw [h2] at hb2
    have e1 := congrArg Vec3.x (Option.some.inj hb1)
    have e2 := congrArg Vec3.x (Option.some.inj hb2)
    simp only [specLerp, vadd, smul, vsub, mS0] at e1 e2
    norm_num at e1 e2
    rw [e1] at e2
    norm_num at e2

/-- C4 (amended): when the nearest-opposite query returns a neighbour (at a
distinct position, so the candidate is a well-defined vector), the agent's
new position is the candidate sum clamped to the arena radius, assigned
directly — there is no interpolation step between the old position and the
clamped candidate. -/
theorem C4_theorem (snap : List MAgent) (a c : MAgent) (dt speed rho : ℝ)
    (hn : nearestOpposite snap a = some c) (hne : c.pos ≠ a.pos) :
    mCandidate snap a c dt speed rho ≠ none ∧
    motionAgent snap a dt speed rho =
      (mCandidate snap a c dt speed rho).map (clampLenMax 800) := by
  constructor
  · have hvz : vsub c.pos a.pos ≠ vzero := fun h => hne ((vsub_eq_vzero_iff _ _).mp h)
    unfold mCandidate attractTerm normalizeNaN
    rw [if_neg hvz]
    intro h
    exact Option.noConfusion h
  · exact motionAgent_some snap a c dt speed rho hn

/-- C4 witness: the Scissors/Paper snapshot instantiates the amended
statement. -/
theorem C4_witness :
    nearestOpposite snapW mS0 = some mP30 ∧ mP30.pos ≠ mS0.pos ∧
    (mCandidate snapW mS0 mP30 1 100 (1 / 2) ≠ none ∧
      motionAgent snapW mS0 1 100 (1 / 2) =
        (mCandidate snapW mS0 mP30 1 100 (1 / 2)).map (clampLenMax 800)) := by
  have hne : mP30.pos ≠ mS0.pos := by
    intro h
    have hx := congrArg Vec3.x h
    norm_num [mP30, mS0] at hx
  exact ⟨rfl, hne, C4_theorem snapW mS0 mP30 1 100 (1 / 2) rfl hne⟩
